import Mathlib

/-! # butiki: a command bookmark manager

A shallow embedding of `main.go`.  Every function of the program is a Lean
function over an explicit `World` (the files the program can see, the
environment, the text printed so far and the writes attempted so far).  The
Go library calls the program makes are modelled as follows.

* `map[string]string` is `GoMap`: `none` is the nil map, `some t` a map whose
  content is the key-unique association list `t`.  A `range` loop visits the
  entries of `t` in list order; since the theorems hold for every `t`, they
  hold for every visiting order.
* `encoding/json` is the parameter `J : Json` of every function that
  serialises or parses: the program is verified against what it asks of
  the library, stated as explicit hypotheses.
* `os.Stat`, `os.ReadFile` and `os.WriteFile` act on `World.files`.
* `fmt.Printf`/`fmt.Println` append one `Msg` (the call site with its
  arguments) to `World.out`; `Msg.render` gives the printed text.
* A Go panic is the error side of `Except Panic`.
-/

namespace Butiki

/-! ## Go values -/

/-- The content of a non-nil `map[string]string`. -/
abbrev Table := AList (fun _ : String => String)

/-- A Go `map[string]string`; `none` is the nil map. -/
abbrev GoMap := Option Table

/-- A Go `error` value. -/
inductive GoError where
  | io (op path : String)
  | json (detail : String)
  | exec (program : String)
deriving DecidableEq, Repr

/-- The run-time panics the program can raise. -/
inductive Panic where
  | userCurrent
  | nilMapAssign
deriving DecidableEq, Repr

/-- The empty map `make(map[string]string)`. -/
def emptyMap : GoMap := some ∅

/-- The index expression `v, exists := m[k]`; `none` stands for `exists = false`. -/
def mapGet : GoMap → String → Option String
  | none, _ => none
  | some t, k => t.lookup k

/-- The assignment `m[k] = v`; it panics on a nil map. -/
def mapSet : GoMap → String → String → Except Panic GoMap
  | none, _, _ => .error .nilMapAssign
  | some t, k, v => .ok (some (t.insert k v))

/-- The builtin `delete(m, k)`; a no-op on a nil map. -/
def mapDelete : GoMap → String → GoMap
  | none, _ => none
  | some t, k => some (t.erase k)

/-- The entries a `range` loop over the map visits. -/
def mapRange : GoMap → List (String × String)
  | none => []
  | some t => t.entries.map (fun e => (e.1, e.2))

/-- The builtin `len(m)`. -/
def mapLen (m : GoMap) : Nat := (mapRange m).length

/-! ## Library functions on strings -/

/-- Whether `k` starts the character sequence `s`. -/
def startsWith : List Char → List Char → Bool
  | _, [] => true
  | [], _ :: _ => false
  | c :: s, d :: k => c == d && startsWith s k

/-- Whether `k` occurs in `s` at some offset. -/
def containsChars : List Char → List Char → Bool
  | [], k => startsWith [] k
  | c :: s, k => startsWith (c :: s) k || containsChars s k

/-- The call `strings.Contains(s, substr)`. -/
def stringsContains (s substr : String) : Bool := containsChars s.data substr.data

/-- The white space of `unicode.IsSpace`. -/
def isSpace (c : Char) : Bool :=
  let n := c.toNat
  (9 ≤ n && n ≤ 13) || n == 32 || n == 0x85 || n == 0xA0 || n == 0x1680 ||
  (0x2000 ≤ n && n ≤ 0x200A) || n == 0x2028 || n == 0x2029 || n == 0x202F ||
  n == 0x205F || n == 0x3000

/-- The call `strings.TrimSpace(s)`: leading and trailing white space removed. -/
def stringsTrimSpace (s : String) : String :=
  ⟨((s.data.dropWhile isSpace).reverse.dropWhile isSpace).reverse⟩

/-- The call `strings.Join(elems, sep)`. -/
def stringsJoin : List String → String → String
  | [], _ => ""
  | [a], _ => a
  | a :: b :: rest, sep => a ++ sep ++ stringsJoin (b :: rest) sep

/-- The call `filepath.Join(dir, name)` for a directory path without a
trailing separator. -/
def filepathJoin (dir name : String) : String := dir ++ "/" ++ name

/-! ## The JSON library -/

/-- The two `encoding/json` entry points the program calls.
`marshalIndent m` is `json.MarshalIndent(m, "", "  ")`.
`unmarshal data m` is `json.Unmarshal(data, &m)`: it returns the value of `m`
afterwards together with the error, if any. -/
structure Json where
  marshalIndent : GoMap → Except GoError String
  unmarshal : String → GoMap → GoMap × Option GoError

/-! ## The world -/

/-- What the operating system knows about one path. -/
structure FileState where
  /-- `os.Stat` does not answer "does not exist". -/
  present : Bool
  /-- `os.ReadFile` succeeds. -/
  readable : Bool
  /-- `os.WriteFile` succeeds. -/
  writable : Bool
  data : String
deriving DecidableEq, Repr

/-- One call of `fmt.Printf` or `fmt.Println`, with its arguments. -/
inductive Msg where
  | errorLoading (err : GoError)
  | labelExists (label : String)
  | added (label : String)
  | labelDoesNotExist (label : String)
  | updated (label : String)
  | labelNotFound (label : String)
  | deleted (label : String)
  | noCommandsStored
  | storedCommands
  | entry (label cmd : String)
  | commandNotFound (label : String)
  | running (label cmdStr : String)
  | errorRunning (err : GoError)
  | failedTempFile (err : GoError)
  | couldNotRead (err : GoError)
  | updatedCommand (label : String)
  | noChanges
  | noMatching
  | failedExport (err : GoError)
  | exported (filePath : String)
  | failedRead (err : GoError)
  | invalidJSON
  | imported (n : Nat)
  | usage
  | usageOf (line : String)
deriving DecidableEq, Repr

/-- Everything outside the program that its behaviour depends on, and
everything it leaves behind. -/
structure World where
  /-- The home directory reported by `user.Current()`; `none` when that call fails. -/
  homeDir : Option String
  files : String → FileState
  /-- The value of the environment variable `EDITOR` ("" when unset). -/
  editorEnv : String
  /-- Whether `os.CreateTemp` succeeds. -/
  tempOk : Bool
  /-- Running the editor `prog` on a temp file holding `text`: what
  `os.ReadFile` returns for the temp file afterwards. -/
  editor : (prog text : String) → Except GoError String
  /-- Running `bash -c cmd`: the error of `cmd.Run()`, if any. -/
  shell : (cmd : String) → Option GoError
  /-- The messages printed so far, oldest first. -/
  out : List Msg
  /-- The `os.WriteFile` calls made so far (path, data), oldest first. -/
  writes : List (String × String)

/-- A call of `fmt.Printf`/`fmt.Println`. -/
def World.print (w : World) (m : Msg) : World := { w with out := w.out ++ [m] }

/-- Whether `os.Stat(path)` fails with an error for which `os.IsNotExist` holds. -/
def osIsNotExist (w : World) (path : String) : Bool := !(w.files path).present

/-- The call `os.ReadFile(path)`. -/
def osReadFile (w : World) (path : String) : Except GoError String :=
  if (w.files path).present && (w.files path).readable then .ok (w.files path).data
  else .error (.io "open" path)

/-- The call `os.WriteFile(path, data, 0644)`.  A failing call leaves the file
as it was; a successful one creates the file if needed (readable, mode 0644)
and replaces its content. -/
def osWriteFile (w : World) (path data : String) : World × Option GoError :=
  let f := w.files path
  if f.writable then
    ({ w with
        files := fun q =>
          if q = path then
            { present := true, readable := !f.present || f.readable, writable := true,
              data := data }
          else w.files q
        writes := w.writes ++ [(path, data)] }, none)
  else ({ w with writes := w.writes ++ [(path, data)] }, some (.io "write" path))

/-- The text a message prints (without the final newline). -/
def GoError.text : GoError → String
  | .io op path => op ++ " " ++ path ++ ": input/output error"
  | .json detail => detail
  | .exec program => "exec: " ++ program

/-- The text a message prints, one line per element. -/
def Msg.render : Msg → List String
  | .errorLoading err => ["Error loading commands: " ++ err.text]
  | .labelExists label => ["[!] Label '" ++ label ++ "' already exists. Use 'update' instead."]
  | .added label => ["[+] Added command under label '" ++ label ++ "'."]
  | .labelDoesNotExist label => ["[!] Label '" ++ label ++ "' does not exist. Use 'add' instead."]
  | .updated label => ["[~] Updated command under label '" ++ label ++ "'."]
  | .labelNotFound label => ["[!] Label '" ++ label ++ "' not found."]
  | .deleted label => ["[-] Deleted command '" ++ label ++ "'."]
  | .noCommandsStored => ["[i] No commands stored."]
  | .storedCommands => ["Stored Commands:"]
  | .entry label cmd => [" - " ++ label ++ ": " ++ cmd]
  | .commandNotFound label => ["[!] Command '" ++ label ++ "' not found."]
  | .running label cmdStr => ["[*] Running '" ++ label ++ "': " ++ cmdStr]
  | .errorRunning err => ["[!] Error running command: " ++ err.text]
  | .failedTempFile err => ["[!] Failed to create temp file: " ++ err.text]
  | .couldNotRead err => ["[!] Could not read file: " ++ err.text]
  | .updatedCommand label => ["[~] Updated command '" ++ label ++ "'."]
  | .noChanges => ["[i] No changes made."]
  | .noMatching => ["[i] No matching commands found."]
  | .failedExport err => ["Failed to export: " ++ err.text]
  | .exported filePath => ["[⇨] Exported to " ++ filePath]
  | .failedRead err => ["[!] Failed to read file: " ++ err.text]
  | .invalidJSON => ["[!] Invalid JSON format."]
  | .imported n => ["[✓] Imported " ++ toString n ++ " command(s)."]
  | .usage =>
    ["Usage:", "  butiki add <label> <command>", "  butiki update <label> <command>",
     "  butiki delete <label>", "  butiki list", "  butiki run <label>",
     "  butiki edit <label>", "  butiki search <keyword>", "  butiki export <filename>",
     "  butiki import <filename>"]
  | .usageOf line => ["[!] Usage: butiki " ++ line]

/-! ## The program -/

def dataFileName : String := ".butiki_commands.json"

def getDataFilePath (w : World) : Except Panic String :=
  match w.homeDir with
  | none => .error .userCurrent
  | some home => .ok (filepathJoin home dataFileName)

def loadCommands (J : Json) (w : World) : Except Panic (GoMap × Option GoError) :=
  match getDataFilePath w with
  | .error p => .error p
  | .ok filePath =>
    let commands := emptyMap
    if osIsNotExist w filePath then .ok (commands, none)
    else
      match osReadFile w filePath with
      | .error err => .ok (none, some err)
      | .ok data => .ok (J.unmarshal data commands)

def saveCommands (J : Json) (commands : GoMap) (w : World) :
    Except Panic (World × Option GoError) :=
  match J.marshalIndent commands with
  | .error err => .ok (w, some err)
  | .ok data =>
    match getDataFilePath w with
    | .error p => .error p
    | .ok filePath => .ok (osWriteFile w filePath data)

def addCommand (J : Json) (label command : String) (w : World) : Except Panic World :=
  match loadCommands J w with
  | .error p => .error p
  | .ok (_, some err) => .ok (w.print (.errorLoading err))
  | .ok (commands, none) =>
    match mapGet commands label with
    | some _ => .ok (w.print (.labelExists label))
    | none =>
      match mapSet commands label command with
      | .error p => .error p
      | .ok commands =>
        match saveCommands J commands w with
        | .error p => .error p
        | .ok (w, _) => .ok (w.print (.added label))

def updateCommand (J : Json) (label command : String) (w : World) : Except Panic World :=
  match loadCommands J w with
  | .error p => .error p
  | .ok (_, some err) => .ok (w.print (.errorLoading err))
  | .ok (commands, none) =>
    match mapGet commands label with
    | none => .ok (w.print (.labelDoesNotExist label))
    | some _ =>
      match mapSet commands label command with
      | .error p => .error p
      | .ok commands =>
        match saveCommands J commands w with
        | .error p => .error p
        | .ok (w, _) => .ok (w.print (.updated label))

def deleteCommand (J : Json) (label : String) (w : World) : Except Panic World :=
  match loadCommands J w with
  | .error p => .error p
  | .ok (_, some err) => .ok (w.print (.errorLoading err))
  | .ok (commands, none) =>
    match mapGet commands label with
    | none => .ok (w.print (.labelNotFound label))
    | some _ =>
      match saveCommands J (mapDelete commands label) w with
      | .error p => .error p
      | .ok (w, _) => .ok (w.print (.deleted label))

def listCommands (J : Json) (w : World) : Except Panic World :=
  match loadCommands J w with
  | .error p => .error p
  | .ok (_, some err) => .ok (w.print (.errorLoading err))
  | .ok (commands, none) =>
    if mapLen commands = 0 then .ok (w.print .noCommandsStored)
    else
      .ok ((mapRange commands).foldl (fun w e => w.print (.entry e.1 e.2))
        (w.print .storedCommands))

def runCommand (J : Json) (label : String) (w : World) : Except Panic World :=
  match loadCommands J w with
  | .error p => .error p
  | .ok (_, some err) => .ok (w.print (.errorLoading err))
  | .ok (commands, none) =>
    match mapGet commands label with
    | none => .ok (w.print (.commandNotFound label))
    | some cmdStr =>
      let w := w.print (.running label cmdStr)
      match w.shell cmdStr with
      | some err => .ok (w.print (.errorRunning err))
      | none => .ok w

def editCommand (J : Json) (label : String) (w : World) : Except Panic World :=
  match loadCommands J w with
  | .error p => .error p
  | .ok (_, some err) => .ok (w.print (.errorLoading err))
  | .ok (commands, none) =>
    match mapGet commands label with
    | none => .ok (w.print (.labelNotFound label))
    | some oldCommand =>
      if !w.tempOk then .ok (w.print (.failedTempFile (.io "open" "butiki_edit_*.txt")))
      else
        let editor := if w.editorEnv = "" then "nano" else w.editorEnv
        match w.editor editor oldCommand with
        | .error err => .ok (w.print (.couldNotRead err))
        | .ok edited =>
          let newCommand := stringsTrimSpace edited
          if newCommand ≠ "" ∧ newCommand ≠ oldCommand then
            match mapSet commands label newCommand with
            | .error p => .error p
            | .ok commands =>
              match saveCommands J commands w with
              | .error p => .error p
              | .ok (w, _) => .ok (w.print (.updatedCommand label))
          else .ok (w.print .noChanges)

def searchCommands (J : Json) (keyword : String) (w : World) : Except Panic World :=
  match loadCommands J w with
  | .error p => .error p
  | .ok (_, some err) => .ok (w.print (.errorLoading err))
  | .ok (commands, none) =>
    let r := (mapRange commands).foldl
      (fun (s : World × Bool) e =>
        if stringsContains e.1 keyword || stringsContains e.2 keyword then
          (s.1.print (.entry e.1 e.2), true)
        else s)
      (w, false)
    if !r.2 then .ok (r.1.print .noMatching) else .ok r.1

def exportCommands (J : Json) (filePath : String) (w : World) : Except Panic World :=
  match loadCommands J w with
  | .error p => .error p
  | .ok (_, some err) => .ok (w.print (.errorLoading err))
  | .ok (commands, none) =>
    match J.marshalIndent commands with
    | .error err => .ok (w.print (.failedExport err))
    | .ok data => .ok ((osWriteFile w filePath data).1.print (.exported filePath))

/-- The loop `for k, v := range imported { commands[k] = v }`. -/
def importLoop : List (String × String) → GoMap → Except Panic GoMap
  | [], commands => .ok commands
  | (k, v) :: rest, commands =>
    match mapSet commands k v with
    | .error p => .error p
    | .ok commands => importLoop rest commands

def importCommands (J : Json) (filePath : String) (w : World) : Except Panic World :=
  match osReadFile w filePath with
  | .error err => .ok (w.print (.failedRead err))
  | .ok data =>
    match J.unmarshal data none with
    | (_, some _) => .ok (w.print .invalidJSON)
    | (imported, none) =>
      match loadCommands J w with
      | .error p => .error p
      | .ok (commands, _) =>
        match importLoop (mapRange imported) commands with
        | .error p => .error p
        | .ok commands =>
          match saveCommands J commands w with
          | .error p => .error p
          | .ok (w, _) => .ok (w.print (.imported (mapLen imported)))

def printUsage (w : World) : World := w.print .usage

/-- The function `main`; `args` is `os.Args`. -/
def main (J : Json) (args : List String) (w : World) : Except Panic World :=
  if args.length < 2 then .ok (printUsage w)
  else
    let action := args.getD 1 ""
    if action = "add" then
      if args.length < 4 then .ok (w.print (.usageOf "add <label> <command>"))
      else addCommand J (args.getD 2 "") (stringsJoin (args.drop 3) " ") w
    else if action = "update" then
      if args.length < 4 then .ok (w.print (.usageOf "update <label> <command>"))
      else updateCommand J (args.getD 2 "") (stringsJoin (args.drop 3) " ") w
    else if action = "delete" then
      if args.length < 3 then .ok (w.print (.usageOf "delete <label>"))
      else deleteCommand J (args.getD 2 "") w
    else if action = "list" then listCommands J w
    else if action = "run" then
      if args.length < 3 then .ok (w.print (.usageOf "run <label>"))
      else runCommand J (args.getD 2 "") w
    else if action = "edit" then
      if args.length < 3 then .ok (w.print (.usageOf "edit <label>"))
      else editCommand J (args.getD 2 "") w
    else if action = "search" then
      if args.length < 3 then .ok (w.print (.usageOf "search <keyword>"))
      else searchCommands J (args.getD 2 "") w
    else if action = "export" then
      if args.length < 3 then .ok (w.print (.usageOf "export <filename>"))
      else exportCommands J (args.getD 2 "") w
    else if action = "import" then
      if args.length < 3 then .ok (w.print (.usageOf "import <filename>"))
      else importCommands J (args.getD 2 "") w
    else .ok (printUsage w)

/-! ## A concrete JSON library

`miniJson` instantiates the library parameter in the examples.  It writes the
object with sorted keys and two-space indentation and reads objects of
strings; of the string escapes it knows the quote, the backslash and the
newline, carriage return and tab. -/

namespace MiniJson

/-- Lexicographic order on character sequences, by code point. -/
def keyLe : List Char → List Char → Bool
  | [], _ => true
  | _ :: _, [] => false
  | c :: s, d :: t => c.toNat < d.toNat || (c.toNat == d.toNat && keyLe s t)

/-- Insertion of one pair into a list sorted by key. -/
def insertSorted (e : String × String) : List (String × String) → List (String × String)
  | [] => [e]
  | f :: rest => if keyLe e.1.data f.1.data then e :: f :: rest else f :: insertSorted e rest

/-- The pairs sorted by key. -/
def sortPairs : List (String × String) → List (String × String)
  | [] => []
  | e :: rest => insertSorted e (sortPairs rest)

/-- The escaped body of a string literal. -/
def escape : List Char → List Char
  | [] => []
  | c :: s =>
    if c = '\x22' then '\x5c' :: '\x22' :: escape s
    else if c = '\x5c' then '\x5c' :: '\x5c' :: escape s
    else if c = '\n' then '\x5c' :: 'n' :: escape s
    else if c = '\r' then '\x5c' :: 'r' :: escape s
    else if c = '\t' then '\x5c' :: 't' :: escape s
    else c :: escape s

/-- A string literal. -/
def quote (s : String) : List Char := '\x22' :: (escape s.data ++ ['\x22'])

/-- The members of an object, one per line. -/
def members : List (String × String) → List Char
  | [] => []
  | [e] => ' ' :: ' ' :: (quote e.1 ++ ':' :: ' ' :: (quote e.2 ++ ['\n']))
  | e :: f :: rest =>
    ' ' :: ' ' :: (quote e.1 ++ ':' :: ' ' :: (quote e.2 ++ ',' :: '\n' :: members (f :: rest)))

/-- The indented JSON text of a map. -/
def marshalIndent : GoMap → Except GoError String
  | none => .ok "null"
  | some t =>
    match sortPairs (mapRange (some t)) with
    | [] => .ok "\x7b\x7d"
    | e :: rest => .ok ⟨'\x7b' :: '\n' :: (members (e :: rest) ++ ['\x7d'])⟩

/-- The states of the reader. -/
inductive Mode where
  | start
  | null (seen : Nat)
  | opened
  | key (acc : List Char) (esc : Bool)
  | colon (k : List Char)
  | value (k : List Char)
  | text (k acc : List Char) (esc : Bool)
  | next
  | comma
  | done
  | isNull
  | bad
deriving DecidableEq, Repr

/-- JSON white space. -/
def isWs (c : Char) : Bool := c = ' ' || c = '\n' || c = '\r' || c = '\t'

/-- The character an escape sequence stands for. -/
def unescape (c : Char) : Option Char :=
  if c = '\x22' then some '\x22'
  else if c = '\x5c' then some '\x5c'
  else if c = '/' then some '/'
  else if c = 'n' then some '\n'
  else if c = 'r' then some '\r'
  else if c = 't' then some '\t'
  else none

/-- One character of input: the new state and the pairs read so far (newest
first). -/
def step (s : Mode × List (String × String)) (c : Char) : Mode × List (String × String) :=
  match s.1 with
  | .start =>
    if isWs c then s else if c = '\x7b' then (.opened, s.2)
    else if c = 'n' then (.null 1, s.2) else (.bad, s.2)
  | .null n =>
    if n = 1 ∧ c = 'u' then (.null 2, s.2)
    else if n = 2 ∧ c = 'l' then (.null 3, s.2)
    else if n = 3 ∧ c = 'l' then (.isNull, s.2)
    else (.bad, s.2)
  | .opened =>
    if isWs c then s else if c = '\x22' then (.key [] false, s.2)
    else if c = '\x7d' then (.done, s.2) else (.bad, s.2)
  | .key acc esc =>
    if esc then
      match unescape c with
      | some d => (.key (d :: acc) false, s.2)
      | none => (.bad, s.2)
    else if c = '\x5c' then (.key acc true, s.2)
    else if c = '\x22' then (.colon acc.reverse, s.2)
    else (.key (c :: acc) false, s.2)
  | .colon k =>
    if isWs c then s else if c = ':' then (.value k, s.2) else (.bad, s.2)
  | .value k =>
    if isWs c then s else if c = '\x22' then (.text k [] false, s.2) else (.bad, s.2)
  | .text k acc esc =>
    if esc then
      match unescape c with
      | some d => (.text k (d :: acc) false, s.2)
      | none => (.bad, s.2)
    else if c = '\x5c' then (.text k acc true, s.2)
    else if c = '\x22' then (.next, (⟨k⟩, ⟨acc.reverse⟩) :: s.2)
    else (.text k (c :: acc) false, s.2)
  | .next =>
    if isWs c then s else if c = ',' then (.comma, s.2)
    else if c = '\x7d' then (.done, s.2) else (.bad, s.2)
  | .comma =>
    if isWs c then s else if c = '\x22' then (.key [] false, s.2) else (.bad, s.2)
  | .done => if isWs c then s else (.bad, s.2)
  | .isNull => if isWs c then s else (.bad, s.2)
  | .bad => s

/-- The pairs stored into a map, in reading order; a nil map is allocated
first. -/
def store : List (String × String) → GoMap → GoMap
  | [], m => some (m.getD ∅)
  | (k, v) :: rest, m => store rest (some ((m.getD ∅).insert k v))

/-- Reading JSON text into a map: a syntax error leaves the map untouched, the
text null makes it nil, an object adds its members. -/
def unmarshal (data : String) (m : GoMap) : GoMap × Option GoError :=
  match data.data.foldl step (.start, []) with
  | (.done, pairs) => (store pairs.reverse m, none)
  | (.isNull, _) => (none, none)
  | _ => (m, some (.json "invalid character"))

end MiniJson

/-- The concrete JSON library of the examples. -/
def miniJson : Json := ⟨MiniJson.marshalIndent, MiniJson.unmarshal⟩

/-! ## Vocabulary of the specification -/

/-- The path of the store file for a home directory. -/
abbrev storePath (home : String) : String := filepathJoin home dataFileName

/-- The JSON library writes `X` and reads it back, into a nil map as well as
into an empty one, as a table with the same entries. -/
def RoundTrips (J : Json) (X : Table) : Prop :=
  ∃ d, J.marshalIndent (some X) = .ok d ∧
    ∀ init, init = none ∨ init = emptyMap →
      ∃ X', J.unmarshal d init = (some X', none) ∧ ∀ k, X'.lookup k = X.lookup k

/-- The string `k` is a substring of `s`. -/
def IsSubstring (k s : String) : Prop := ∃ a b : String, s = a ++ k ++ b

/-- Every stored entry has a non-empty command string. -/
def NonEmptyValues (T : Table) : Prop := ∀ k v, T.lookup k = some v → v ≠ ""

/-- The table the import loop leaves when it runs over `entries` on `T`. -/
def mergeInto (T : Table) : List (String × String) → Table
  | [] => T
  | (k, v) :: rest => mergeInto (T.insert k v) rest

/-- The run `r` from `w` returned, and made no write or a single one: to the
store file, of the serialisation of a table satisfying `P`. -/
def SavesOnly (J : Json) (home : String) (P : Table → Prop) (w : World)
    (r : Except Panic World) : Prop :=
  ∃ w', r = .ok w' ∧
    (w'.writes = w.writes ∨
      ∃ X d, P X ∧ J.marshalIndent (some X) = .ok d ∧
        w'.writes = w.writes ++ [(storePath home, d)])

/-! ## Example worlds -/

/-- A path with no file, where one can be created. -/
def noFile : FileState := ⟨false, false, true, ""⟩

/-- A readable and writable file. -/
def fileOf (text : String) : FileState := ⟨true, true, true, text⟩

/-- A world with home directory `/home/u`, the given store file, the given
file at `/tmp/cmds.json` and no other file; the editor leaves its file as it
found it and nothing was printed or written yet. -/
def exampleWorld (store other : FileState) : World where
  homeDir := some "/home/u"
  files := fun q =>
    if q = "/home/u/.butiki_commands.json" then store
    else if q = "/tmp/cmds.json" then other
    else noFile
  editorEnv := ""
  tempOk := true
  editor := fun _ text => .ok text
  shell := fun _ => none
  out := []
  writes := []

/-- A store file holding the single entry build. -/
def buildStore : FileState := fileOf "\x7b\n  \"build\": \"make all\"\n\x7d"

/-- The table of `buildStore`. -/
def buildTable : Table := (∅ : Table).insert "build" "make all"

/-- A store file holding the entries a and c. -/
def acStore : FileState := fileOf "\x7b\n  \"a\": \"0\",\n  \"c\": \"3\"\n\x7d"

/-- The table `miniJson` reads from `acStore`. -/
def acTable : Table := ((∅ : Table).insert "a" "0").insert "c" "3"

/-- A file to import, holding the entries a and b. -/
def abFile : FileState := fileOf "\x7b\"a\":\"1\",\"b\":\"2\"\x7d"

/-- The table `miniJson` reads from `abFile`. -/
def abTable : Table := ((∅ : Table).insert "a" "1").insert "b" "2"

/-- A store file whose single command has a space on either side. -/
def paddedStore : FileState := fileOf "\x7b\n  \"x\": \" ls \"\n\x7d"

/-- The table of `paddedStore`. -/
def paddedTable : Table := (∅ : Table).insert "x" " ls "

/-- A store file that exists and can be written but not read. -/
def unreadableStore : FileState := ⟨true, false, true, ""⟩

/-- A store file holding the entry build that can be read but not written. -/
def readOnlyStore : FileState :=
  ⟨true, true, false, "\x7b\n  \"build\": \"make all\"\n\x7d"⟩

/-! ## Theorems -/

/-! ### Loading and saving -/

theorem loadCommands_print (J : Json) (w : World) (m : Msg) :
    loadCommands J (w.print m) = loadCommands J w := rfl

theorem load_inv {J : Json} {w : World} {m : GoMap} (h : loadCommands J w = .ok (m, none)) :
    ∃ home, w.homeDir = some home ∧
      (((w.files (storePath home)).present = false ∧ m = emptyMap) ∨
       ((w.files (storePath home)).present = true ∧
          (w.files (storePath home)).readable = true ∧
          J.unmarshal (w.files (storePath home)).data emptyMap = (m, none))) := by
  unfold loadCommands getDataFilePath at h
  simp only [storePath]
  cases hh : w.homeDir with
  | none => simp [hh] at h
  | some home =>
    refine ⟨home, rfl, ?_⟩
    simp only [hh] at h
    change (if osIsNotExist w (filepathJoin home dataFileName) then _ else _) = _ at h
    unfold osIsNotExist osReadFile at h
    cases hp : (w.files (filepathJoin home dataFileName)).present with
    | false =>
      left
      simp [hp] at h
      exact ⟨rfl, h.symm⟩
    | true =>
      right
      cases hr : (w.files (filepathJoin home dataFileName)).readable with
      | false => simp [hp, hr] at h
      | true =>
        simp [hp, hr] at h
        exact ⟨rfl, rfl, h⟩

theorem save_then_load {J : Json} {w : World} {home d : String} {m : GoMap}
    (hh : w.homeDir = some home)
    (hw : (w.files (storePath home)).writable = true)
    (hr : (w.files (storePath home)).present = true →
      (w.files (storePath home)).readable = true)
    (hm : J.marshalIndent m = .ok d) :
    ∃ w', saveCommands J m w = .ok (w', none) ∧ w'.out = w.out ∧
      w'.writes = w.writes ++ [(storePath home, d)] ∧ w'.homeDir = w.homeDir ∧
      (w'.files (storePath home)).data = d ∧
      (∀ q, q ≠ storePath home → w'.files q = w.files q) ∧
      loadCommands J w' = .ok (J.unmarshal d emptyMap) := by
  simp only [storePath] at *
  refine ⟨(osWriteFile w (filepathJoin home dataFileName) d).1, ?_, ?_, ?_, ?_, ?_, ?_, ?_⟩
  · simp [saveCommands, hm, getDataFilePath, hh, osWriteFile, hw]
  · simp [osWriteFile, hw]
  · simp [osWriteFile, hw]
  · simp [osWriteFile, hw]
  · simp [osWriteFile, hw]
  · intro q hq
    simp [osWriteFile, hw, hq]
  · simp only [loadCommands, getDataFilePath, osWriteFile, hw, hh, if_true]
    change (if osIsNotExist _ (filepathJoin home dataFileName) then _ else _) = _
    simp only [osIsNotExist, osReadFile, if_true, Bool.not_true]
    cases hp : (w.files (filepathJoin home dataFileName)).present with
    | false => simp
    | true => simp [hr hp]

theorem startsWith_iff (s k : List Char) : startsWith s k = true ↔ ∃ b, s = k ++ b := by
  induction k generalizing s with
  | nil => simp [startsWith]
  | cons d k ih =>
    cases s with
    | nil => simp [startsWith]
    | cons c s =>
      simp only [startsWith, Bool.and_eq_true, beq_iff_eq, ih, List.cons_append, List.cons.injEq]
      constructor
      · rintro ⟨rfl, b, rfl⟩; exact ⟨b, rfl, rfl⟩
      · rintro ⟨b, rfl, rfl⟩; exact ⟨rfl, b, rfl⟩

theorem containsChars_iff (s k : List Char) :
    containsChars s k = true ↔ ∃ a b, s = a ++ k ++ b := by
  induction s with
  | nil =>
    simp only [containsChars, startsWith_iff]
    constructor
    · rintro ⟨b, hb⟩; exact ⟨[], b, by simpa using hb⟩
    · rintro ⟨a, b, h⟩
      have h' := h.symm
      simp only [List.append_eq_nil] at h'
      exact ⟨[], by simp [h'.1.2]⟩
  | cons c s ih =>
    simp only [containsChars, Bool.or_eq_true, startsWith_iff, ih]
    constructor
    · rintro (⟨b, hb⟩ | ⟨a, b, hab⟩)
      · exact ⟨[], b, by simpa using hb⟩
      · exact ⟨c :: a, b, by simp [hab]⟩
    · rintro ⟨a, b, h⟩
      cases a with
      | nil => left; exact ⟨b, by simpa using h⟩
      | cons x a =>
        right
        simp only [List.cons_append, List.cons.injEq] at h
        exact ⟨a, b, h.2⟩

theorem stringsContains_iff (s k : String) : stringsContains s k = true ↔ IsSubstring k s := by
  unfold stringsContains IsSubstring
  rw [containsChars_iff]
  constructor
  · rintro ⟨a, b, h⟩
    exact ⟨⟨a⟩, ⟨b⟩, String.ext (by simpa using h)⟩
  · rintro ⟨a, b, h⟩
    exact ⟨a.data, b.data, by rw [h]; simp⟩

theorem mem_mapRange {T : Table} {l c : String} :
    (l, c) ∈ mapRange (some T) ↔ T.lookup l = some c := by
  unfold mapRange
  rw [← Option.mem_def, AList.mem_lookup_iff]
  simp only [List.mem_map]
  constructor
  · rintro ⟨⟨a, b⟩, h, heq⟩
    cases heq
    exact h
  · intro h
    exact ⟨⟨l, c⟩, h, rfl⟩

theorem foldl_print_entries (l : List (String × String)) (w : World) :
    l.foldl (fun w e => w.print (.entry e.1 e.2)) w =
      { w with out := w.out ++ l.map (fun e => Msg.entry e.1 e.2) } := by
  induction l generalizing w with
  | nil => simp
  | cons e l ih =>
    rw [List.foldl_cons, ih]
    simp [World.print]

theorem listCommands_prints {J : Json} {w : World} {T : Table} {L C : String}
    (hload : loadCommands J w = .ok (some T, none)) (hL : T.lookup L = some C) :
    ∃ printed, listCommands J w = .ok { w with out := w.out ++ printed } ∧
      Msg.entry L C ∈ printed := by
  have hmem : (L, C) ∈ mapRange (some T) := mem_mapRange.mpr hL
  have hlen : mapLen (some T) ≠ 0 := by
    unfold mapLen
    intro h
    rw [List.length_eq_zero] at h
    rw [h] at hmem
    cases hmem
  refine ⟨Msg.storedCommands :: (mapRange (some T)).map (fun e => Msg.entry e.1 e.2), ?_, ?_⟩
  · simp only [listCommands, hload, hlen, if_false, foldl_print_entries]
    simp [World.print]
  · exact List.mem_cons_of_mem _ (List.mem_map.mpr ⟨(L, C), hmem, rfl⟩)

theorem foldl_search (K : String) (l : List (String × String)) (w : World) (found : Bool) :
    l.foldl
      (fun (s : World × Bool) e =>
        if stringsContains e.1 K || stringsContains e.2 K then
          (s.1.print (.entry e.1 e.2), true)
        else s) (w, found) =
      ({ w with
          out := w.out ++ (l.filter fun e => stringsContains e.1 K || stringsContains e.2 K).map
            fun e => Msg.entry e.1 e.2 },
        found || l.any fun e => stringsContains e.1 K || stringsContains e.2 K) := by
  induction l generalizing w found with
  | nil => simp
  | cons e l ih =>
    rw [List.foldl_cons]
    by_cases h : (stringsContains e.1 K || stringsContains e.2 K) = true
    · rw [if_pos h, ih]
      simp [h, World.print]
    · rw [if_neg h, ih]
      simp [h]

theorem load_readable {J : Json} {w : World} {m : GoMap} {home : String}
    (hh : w.homeDir = some home) (h : loadCommands J w = .ok (m, none)) :
    (w.files (storePath home)).present = true → (w.files (storePath home)).readable = true := by
  obtain ⟨home', hh', h'⟩ := load_inv h
  rw [hh] at hh'
  cases hh'
  rcases h' with ⟨hp, _⟩ | ⟨_, hr, _⟩
  · intro hp'; rw [hp] at hp'; cases hp'
  · intro _; exact hr

/-- A successful save of `X` on a store that loaded: what the world looks like afterwards. -/
theorem save_table {J : Json} {w : World} {home : String} {m : GoMap} {X : Table}
    (hh : w.homeDir = some home) (hload : loadCommands J w = .ok (m, none))
    (hw : (w.files (storePath home)).writable = true) (hrt : RoundTrips J X) :
    ∃ w' d X', saveCommands J (some X) w = .ok (w', none) ∧ w'.out = w.out ∧
      J.marshalIndent (some X) = .ok d ∧
      w'.writes = w.writes ++ [(storePath home, d)] ∧
      (∀ q, q ≠ storePath home → w'.files q = w.files q) ∧
      loadCommands J w' = .ok (some X', none) ∧ ∀ k, X'.lookup k = X.lookup k := by
  obtain ⟨d, hd, hback⟩ := hrt
  obtain ⟨X', hX', hlook⟩ := hback emptyMap (Or.inr rfl)
  obtain ⟨w', h1, h2, h3, _, _, h6, h7⟩ := save_then_load hh hw (load_readable hh hload) hd
  exact ⟨w', d, X', h1, h2, hd, h3, h6, by rw [h7, hX'], hlook⟩


/-- C1: on a store that loads as the table `T`, `addCommand L C` with `L` not a key
of `T` (the store file writable, the JSON library round-tripping the new table)
returns, leaves a store that loads as a table mapping `L` to `C` with every
other entry unchanged, prints the success message, and a following
`listCommands` prints the pair `(L, C)`; with `L` already a key of `T` it
changes nothing but the output, to which it adds the 'already exists' message
and no success message, and the store still loads as `T`. -/
theorem addCommand_contract (J : Json) (w : World) (home : String) (T : Table) (L C : String)
    (hhome : w.homeDir = some home)
    (hload : loadCommands J w = .ok (some T, none)) :
    (T.lookup L = none → (w.files (storePath home)).writable = true →
      RoundTrips J (T.insert L C) →
      ∃ w' T', addCommand J L C w = .ok w' ∧
        loadCommands J w' = .ok (some T', none) ∧
        T'.lookup L = some C ∧ (∀ k, k ≠ L → T'.lookup k = T.lookup k) ∧
        w'.out = w.out ++ [Msg.added L] ∧
        ∃ printed, listCommands J w' = .ok { w' with out := w'.out ++ printed } ∧
          Msg.entry L C ∈ printed) ∧
    (∀ c, T.lookup L = some c →
      addCommand J L C w = .ok { w with out := w.out ++ [Msg.labelExists L] } ∧
      loadCommands J { w with out := w.out ++ [Msg.labelExists L] } = .ok (some T, none)) := by
  constructor
  · intro hL hw hrt
    obtain ⟨w', d, X', h1, h2, _, _, _, h6, h7⟩ := save_table hhome hload hw hrt
    have hLC : X'.lookup L = some C := by rw [h7]; simp
    refine ⟨w'.print (.added L), X', ?_, ?_, hLC, ?_, ?_, ?_⟩
    · simp [addCommand, hload, mapGet, hL, mapSet, h1]
    · rw [loadCommands_print]; exact h6
    · intro k hk; rw [h7]; exact AList.lookup_insert_ne hk
    · simp [World.print, h2]
    · exact listCommands_prints (by rw [loadCommands_print]; exact h6) hLC
  · intro c hc
    refine ⟨?_, hload⟩
    simp [addCommand, hload, mapGet, hc, World.print]

theorem roundTrips_of_eval {J : Json} {X X₁ X₂ : Table} {d : String}
    (hm : J.marshalIndent (some X) = .ok d)
    (h₁ : J.unmarshal d none = (some X₁, none)) (h₂ : J.unmarshal d emptyMap = (some X₂, none))
    (p₁ : X₁.entries.Perm X.entries) (p₂ : X₂.entries.Perm X.entries) : RoundTrips J X := by
  refine ⟨d, hm, ?_⟩
  rintro init (rfl | rfl)
  · exact ⟨X₁, h₁, fun k => AList.perm_lookup p₁⟩
  · exact ⟨X₂, h₂, fun k => AList.perm_lookup p₂⟩

theorem addCommand_contract_witness :
    (exampleWorld buildStore noFile).homeDir = some "/home/u" ∧
    loadCommands miniJson (exampleWorld buildStore noFile) = .ok (some buildTable, none) ∧
    buildTable.lookup "test" = none ∧
    ((exampleWorld buildStore noFile).files (storePath "/home/u")).writable = true ∧
    RoundTrips miniJson (buildTable.insert "test" "go test") ∧
    ∃ w' T', addCommand miniJson "test" "go test" (exampleWorld buildStore noFile) = .ok w' ∧
      loadCommands miniJson w' = .ok (some T', none) ∧ T'.lookup "test" = some "go test" ∧
      w'.out = [Msg.added "test"] :=
  have hrt : RoundTrips miniJson (buildTable.insert "test" "go test") :=
    roundTrips_of_eval (d := "\x7b\n  \"build\": \"make all\",\n  \"test\": \"go test\"\n\x7d")
      rfl rfl rfl (List.Perm.refl _) (List.Perm.refl _)
  have h := (addCommand_contract miniJson (exampleWorld buildStore noFile) "/home/u" buildTable
    "test" "go test" rfl rfl).1 rfl rfl hrt
  ⟨rfl, rfl, rfl, rfl, hrt, by
    obtain ⟨w', T', h1, h2, h3, _, h5, _⟩ := h
    exact ⟨w', T', h1, h2, h3, h5⟩⟩

/-- C2: on a store that loads as the table `T`, `updateCommand L C2` with `L` a key
of `T` (the store file writable, the JSON library round-tripping the new table)
returns, leaves a store that loads as a table mapping `L` to `C2` with every
other entry and the key set unchanged, and prints the update message; with `L`
not a key of `T` it changes nothing but the output, to which it adds the
'does not exist' message, and the store still loads as `T`. -/
theorem updateCommand_contract (J : Json) (w : World) (home : String) (T : Table)
    (L C2 : String) (hhome : w.homeDir = some home)
    (hload : loadCommands J w = .ok (some T, none)) :
    (L ∈ T → (w.files (storePath home)).writable = true → RoundTrips J (T.insert L C2) →
      ∃ w' T', updateCommand J L C2 w = .ok w' ∧
        loadCommands J w' = .ok (some T', none) ∧
        T'.lookup L = some C2 ∧ (∀ k, k ≠ L → T'.lookup k = T.lookup k) ∧
        (∀ k, k ∈ T' ↔ k ∈ T) ∧
        w'.out = w.out ++ [Msg.updated L]) ∧
    (L ∉ T →
      updateCommand J L C2 w = .ok { w with out := w.out ++ [Msg.labelDoesNotExist L] } ∧
      loadCommands J { w with out := w.out ++ [Msg.labelDoesNotExist L] } =
        .ok (some T, none)) := by
  constructor
  · intro hL hw hrt
    obtain ⟨c, hc⟩ := Option.isSome_iff_exists.mp (AList.lookup_isSome.mpr hL)
    obtain ⟨w', d, X', h1, h2, _, _, _, h6, h7⟩ := save_table hhome hload hw hrt
    have hLC : X'.lookup L = some C2 := by rw [h7]; simp
    have hne : ∀ k, k ≠ L → X'.lookup k = T.lookup k := by
      intro k hk; rw [h7]; exact AList.lookup_insert_ne hk
    refine ⟨w'.print (.updated L), X', ?_, ?_, hLC, hne, ?_, ?_⟩
    · simp [updateCommand, hload, mapGet, hc, mapSet, h1]
    · rw [loadCommands_print]; exact h6
    · intro k
      rw [← AList.lookup_isSome, ← AList.lookup_isSome]
      by_cases hk : k = L
      · subst hk; simp [hLC, hc]
      · rw [hne k hk]
    · simp [World.print, h2]
  · intro hL
    have hn : T.lookup L = none := AList.lookup_eq_none.mpr hL
    refine ⟨?_, hload⟩
    simp [updateCommand, hload, mapGet, hn, World.print]

theorem updateCommand_contract_witness :
    (exampleWorld buildStore noFile).homeDir = some "/home/u" ∧
    loadCommands miniJson (exampleWorld buildStore noFile) = .ok (some buildTable, none) ∧
    "build" ∈ buildTable ∧
    ((exampleWorld buildStore noFile).files (storePath "/home/u")).writable = true ∧
    RoundTrips miniJson (buildTable.insert "build" "make -j4") ∧
    ∃ w' T', updateCommand miniJson "build" "make -j4" (exampleWorld buildStore noFile) = .ok w' ∧
      loadCommands miniJson w' = .ok (some T', none) ∧ T'.lookup "build" = some "make -j4" ∧
      w'.out = [Msg.updated "build"] :=
  have hmem : "build" ∈ buildTable := AList.lookup_isSome.mp (by rfl)
  have hrt : RoundTrips miniJson (buildTable.insert "build" "make -j4") :=
    roundTrips_of_eval (d := "\x7b\n  \"build\": \"make -j4\"\n\x7d")
      rfl rfl rfl (List.Perm.refl _) (List.Perm.refl _)
  have h := (updateCommand_contract miniJson (exampleWorld buildStore noFile) "/home/u"
    buildTable "build" "make -j4" rfl rfl).1 hmem rfl hrt
  ⟨rfl, rfl, hmem, rfl, hrt, by
    obtain ⟨w', T', h1, h2, h3, _, _, h5⟩ := h
    exact ⟨w', T', h1, h2, h3, h5⟩⟩

/-- C3: on a store that loads as the table `T`, `deleteCommand L` with `L` a key of
`T` (the store file writable, the JSON library round-tripping the new table)
returns, leaves a store that loads as a table without `L` and with every other
entry unchanged, and prints the deletion message; with `L` not a key of `T` it
changes nothing but the output, to which it adds the 'not found' message, and
the store still loads as `T`. -/
theorem deleteCommand_contract (J : Json) (w : World) (home : String) (T : Table)
    (L : String) (hhome : w.homeDir = some home)
    (hload : loadCommands J w = .ok (some T, none)) :
    (L ∈ T → (w.files (storePath home)).writable = true → RoundTrips J (T.erase L) →
      ∃ w' T', deleteCommand J L w = .ok w' ∧
        loadCommands J w' = .ok (some T', none) ∧
        T'.lookup L = none ∧ (∀ k, k ≠ L → T'.lookup k = T.lookup k) ∧
        w'.out = w.out ++ [Msg.deleted L]) ∧
    (L ∉ T →
      deleteCommand J L w = .ok { w with out := w.out ++ [Msg.labelNotFound L] } ∧
      loadCommands J { w with out := w.out ++ [Msg.labelNotFound L] } =
        .ok (some T, none)) := by
  constructor
  · intro hL hw hrt
    obtain ⟨c, hc⟩ := Option.isSome_iff_exists.mp (AList.lookup_isSome.mpr hL)
    obtain ⟨w', d, X', h1, h2, _, _, _, h6, h7⟩ := save_table hhome hload hw hrt
    refine ⟨w'.print (.deleted L), X', ?_, ?_, ?_, ?_, ?_⟩
    · simp [deleteCommand, hload, mapGet, hc, mapDelete, h1]
    · rw [loadCommands_print]; exact h6
    · rw [h7]; simp
    · intro k hk; rw [h7]; exact AList.lookup_erase_ne hk
    · simp [World.print, h2]
  · intro hL
    have hn : T.lookup L = none := AList.lookup_eq_none.mpr hL
    refine ⟨?_, hload⟩
    simp [deleteCommand, hload, mapGet, hn, World.print]

theorem deleteCommand_contract_witness :
    (exampleWorld buildStore noFile).homeDir = some "/home/u" ∧
    loadCommands miniJson (exampleWorld buildStore noFile) = .ok (some buildTable, none) ∧
    "build" ∈ buildTable ∧
    ((exampleWorld buildStore noFile).files (storePath "/home/u")).writable = true ∧
    RoundTrips miniJson (buildTable.erase "build") ∧
    ∃ w' T', deleteCommand miniJson "build" (exampleWorld buildStore noFile) = .ok w' ∧
      loadCommands miniJson w' = .ok (some T', none) ∧ T'.lookup "build" = none ∧
      w'.out = [Msg.deleted "build"] :=
  have hmem : "build" ∈ buildTable := AList.lookup_isSome.mp (by rfl)
  have hrt : RoundTrips miniJson (buildTable.erase "build") :=
    roundTrips_of_eval (d := "\x7b\x7d") rfl rfl rfl (List.Perm.refl _) (List.Perm.refl _)
  have h := (deleteCommand_contract miniJson (exampleWorld buildStore noFile) "/home/u"
    buildTable "build" rfl rfl).1 hmem rfl hrt
  ⟨rfl, rfl, hmem, rfl, hrt, by
    obtain ⟨w', T', h1, h2, h3, _, h5⟩ := h
    exact ⟨w', T', h1, h2, h3, h5⟩⟩

/-- C4: on a store that loads as the table `T`, `searchCommands K` returns and
changes nothing but the output; what it prints contains the entry
`(label, command)` exactly when that is an entry of `T` and `K` is a substring
of the label or of the command, and contains the 'No matching commands found.'
message exactly when no entry of `T` matches. -/
theorem searchCommands_contract (J : Json) (w : World) (T : Table) (K : String)
    (hload : loadCommands J w = .ok (some T, none)) :
    ∃ printed, searchCommands J K w = .ok { w with out := w.out ++ printed } ∧
      (∀ l c, Msg.entry l c ∈ printed ↔
        (T.lookup l = some c ∧ (IsSubstring K l ∨ IsSubstring K c))) ∧
      (Msg.noMatching ∈ printed ↔
        ∀ l c, T.lookup l = some c → ¬ (IsSubstring K l ∨ IsSubstring K c)) := by
  have hp : ∀ l c, (stringsContains l K || stringsContains c K) = true ↔
      (IsSubstring K l ∨ IsSubstring K c) := by
    intro l c
    simp only [Bool.or_eq_true, stringsContains_iff]
  have hentries : ∀ l c,
      (Msg.entry l c ∈ (((mapRange (some T)).filter
        (fun e => stringsContains e.1 K || stringsContains e.2 K)).map
          (fun e => Msg.entry e.1 e.2))) ↔
      (T.lookup l = some c ∧ (IsSubstring K l ∨ IsSubstring K c)) := by
    intro l c
    simp only [List.mem_map, List.mem_filter]
    constructor
    · rintro ⟨⟨l', c'⟩, ⟨hmem, hpe⟩, heq⟩
      cases heq
      exact ⟨mem_mapRange.mp hmem, (hp _ _).mp hpe⟩
    · rintro ⟨hl, hm⟩
      exact ⟨(l, c), ⟨mem_mapRange.mpr hl, (hp l c).mpr hm⟩, rfl⟩
  have hany : ((mapRange (some T)).any
      (fun e => stringsContains e.1 K || stringsContains e.2 K)) = true ↔
      ∃ l c, T.lookup l = some c ∧ (IsSubstring K l ∨ IsSubstring K c) := by
    simp only [List.any_eq_true]
    constructor
    · rintro ⟨⟨l, c⟩, hmem, hpe⟩
      exact ⟨l, c, mem_mapRange.mp hmem, (hp l c).mp hpe⟩
    · rintro ⟨l, c, hl, hm⟩
      exact ⟨(l, c), mem_mapRange.mpr hl, (hp l c).mpr hm⟩
  cases hfound : (mapRange (some T)).any
      (fun e => stringsContains e.1 K || stringsContains e.2 K) with
  | true =>
    refine ⟨((mapRange (some T)).filter
      (fun e => stringsContains e.1 K || stringsContains e.2 K)).map
        (fun e => Msg.entry e.1 e.2), ?_, hentries, ?_⟩
    · simp only [searchCommands, hload, foldl_search, hfound]
      rfl
    · constructor
      · intro h
        simp at h
      · intro h
        obtain ⟨l, c, hl, hm⟩ := hany.mp hfound
        exact absurd hm (h l c hl)
  | false =>
    refine ⟨((mapRange (some T)).filter
      (fun e => stringsContains e.1 K || stringsContains e.2 K)).map
        (fun e => Msg.entry e.1 e.2) ++ [Msg.noMatching], ?_, ?_, ?_⟩
    · simp only [searchCommands, hload, foldl_search, hfound]
      simp [World.print]
    · intro l c
      rw [← hentries l c]
      simp
    · constructor
      · intro _ l c hl hm
        have := hany.mpr ⟨l, c, hl, hm⟩
        rw [hfound] at this
        cases this
      · intro _
        simp

theorem searchCommands_contract_witness :
    loadCommands miniJson (exampleWorld buildStore noFile) = .ok (some buildTable, none) ∧
    (∃ printed, searchCommands miniJson "make" (exampleWorld buildStore noFile) =
        .ok { exampleWorld buildStore noFile with
              out := (exampleWorld buildStore noFile).out ++ printed } ∧
      (∀ l c, Msg.entry l c ∈ printed ↔
        (buildTable.lookup l = some c ∧ (IsSubstring "make" l ∨ IsSubstring "make" c))) ∧
      (Msg.noMatching ∈ printed ↔
        ∀ l c, buildTable.lookup l = some c →
          ¬ (IsSubstring "make" l ∨ IsSubstring "make" c))) ∧
    searchCommands miniJson "make" (exampleWorld buildStore noFile) =
      .ok ((exampleWorld buildStore noFile).print (.entry "build" "make all")) ∧
    searchCommands miniJson "xyz" (exampleWorld buildStore noFile) =
      .ok ((exampleWorld buildStore noFile).print .noMatching) :=
  ⟨rfl, searchCommands_contract miniJson (exampleWorld buildStore noFile) buildTable "make" rfl,
    rfl, rfl⟩

theorem importLoop_some (l : List (String × String)) (T : Table) :
    importLoop l (some T) = .ok (some (mergeInto T l)) := by
  induction l generalizing T with
  | nil => rfl
  | cons e l ih =>
    obtain ⟨k, v⟩ := e
    simp only [importLoop, mapSet, mergeInto, ih]

theorem lookup_mergeInto_entries (l : List (Sigma fun _ : String => String))
    (hl : l.NodupKeys) (T : Table) (k : String) :
    (mergeInto T (l.map fun e => (e.1, e.2))).lookup k =
      match l.dlookup k with
      | some v => some v
      | none => T.lookup k := by
  induction l generalizing T with
  | nil => simp [mergeInto]
  | cons e l ih =>
    obtain ⟨a, b⟩ := e
    rw [List.nodupKeys_cons] at hl
    simp only [List.map_cons, mergeInto]
    rw [ih hl.2]
    by_cases hk : k = a
    · subst hk
      have hnone : l.dlookup k = none := by
        rw [List.dlookup_eq_none]
        exact hl.1
      simp [hnone]
    · rw [List.dlookup_cons_ne _ _ hk, AList.lookup_insert_ne hk]

theorem lookup_mergeInto (T : Table) (imported : GoMap) (k : String) :
    (mergeInto T (mapRange imported)).lookup k =
      match mapGet imported k with
      | some v => some v
      | none => T.lookup k := by
  cases imported with
  | none => simp [mapRange, mapGet, mergeInto]
  | some M => exact lookup_mergeInto_entries M.entries M.nodupKeys T k

/-- What `importCommands` does once the import file has parsed, on a store
whose loading gave a non-nil map (with or without an error). -/
theorem import_saves {J : Json} {w : World} {home p d dx : String} {imported : GoMap}
    {T : Table} {e : Option GoError}
    (hhome : w.homeDir = some home) (hread : osReadFile w p = .ok d)
    (hparse : J.unmarshal d none = (imported, none))
    (hload : loadCommands J w = .ok (some T, e))
    (hw : (w.files (storePath home)).writable = true)
    (hr : (w.files (storePath home)).present = true →
      (w.files (storePath home)).readable = true)
    (hm : J.marshalIndent (some (mergeInto T (mapRange imported))) = .ok dx) :
    ∃ w', importCommands J p w = .ok w' ∧
      w'.out = w.out ++ [Msg.imported (mapLen imported)] ∧
      w'.writes = w.writes ++ [(storePath home, dx)] ∧
      loadCommands J w' = .ok (J.unmarshal dx emptyMap) := by
  obtain ⟨w', h1, h2, h3, _, _, _, h7⟩ := save_then_load hhome hw hr hm
  refine ⟨w'.print (.imported (mapLen imported)), ?_, ?_, ?_, ?_⟩
  · simp [importCommands, hread, hparse, hload, importLoop_some, h1]
  · simp [World.print, h2]
  · simp [World.print, h3]
  · rw [loadCommands_print]; exact h7

/-- C5: on a store that loads as the table `T`, with an import file that parses
to the map `imported` (the store file writable, the JSON library round-tripping
the merged table), `importCommands` returns and leaves a store that loads as the
right-biased merge: a label of `imported` has the imported command, any other
label has what `T` gives it; the count it reports is the size of `imported`. -/
theorem importCommands_contract (J : Json) (w : World) (home p d : String)
    (imported : GoMap) (T : Table)
    (hhome : w.homeDir = some home) (hread : osReadFile w p = .ok d)
    (hparse : J.unmarshal d none = (imported, none))
    (hload : loadCommands J w = .ok (some T, none))
    (hw : (w.files (storePath home)).writable = true)
    (hrt : RoundTrips J (mergeInto T (mapRange imported))) :
    ∃ w' T', importCommands J p w = .ok w' ∧
      loadCommands J w' = .ok (some T', none) ∧
      (∀ k, T'.lookup k =
        match mapGet imported k with
        | some v => some v
        | none => T.lookup k) ∧
      w'.out = w.out ++ [Msg.imported (mapLen imported)] := by
  obtain ⟨dx, hdx, hback⟩ := hrt
  obtain ⟨X', hX', hlook⟩ := hback emptyMap (Or.inr rfl)
  obtain ⟨w', h1, h2, _, h4⟩ :=
    import_saves hhome hread hparse hload hw (load_readable hhome hload) hdx
  refine ⟨w', X', h1, by rw [h4, hX'], ?_, h2⟩
  intro k
  rw [hlook k, lookup_mergeInto]

theorem importCommands_contract_witness :
    (exampleWorld acStore abFile).homeDir = some "/home/u" ∧
    osReadFile (exampleWorld acStore abFile) "/tmp/cmds.json" =
      .ok "\x7b\"a\":\"1\",\"b\":\"2\"\x7d" ∧
    miniJson.unmarshal "\x7b\"a\":\"1\",\"b\":\"2\"\x7d" none = (some abTable, none) ∧
    loadCommands miniJson (exampleWorld acStore abFile) = .ok (some acTable, none) ∧
    ((exampleWorld acStore abFile).files (storePath "/home/u")).writable = true ∧
    RoundTrips miniJson (mergeInto acTable (mapRange (some abTable))) ∧
    ∃ w' T', importCommands miniJson "/tmp/cmds.json" (exampleWorld acStore abFile) = .ok w' ∧
      loadCommands miniJson w' = .ok (some T', none) ∧
      T'.lookup "a" = some "1" ∧ T'.lookup "b" = some "2" ∧ T'.lookup "c" = some "3" ∧
      (∀ k, k ≠ "a" → k ≠ "b" → k ≠ "c" → T'.lookup k = none) ∧
      w'.out = [Msg.imported 2] :=
  have hrt : RoundTrips miniJson (mergeInto acTable (mapRange (some abTable))) :=
    roundTrips_of_eval (d := "\x7b\n  \"a\": \"1\",\n  \"b\": \"2\",\n  \"c\": \"3\"\n\x7d")
      rfl rfl rfl (by decide) (by decide)
  have h := importCommands_contract miniJson (exampleWorld acStore abFile) "/home/u"
    "/tmp/cmds.json" "\x7b\"a\":\"1\",\"b\":\"2\"\x7d" (some abTable) acTable rfl rfl rfl rfl rfl hrt
  ⟨rfl, rfl, rfl, rfl, rfl, hrt, by
    obtain ⟨w', T', h1, h2, h3, h4⟩ := h
    refine ⟨w', T', h1, h2, ?_, ?_, ?_, ?_, h4⟩
    · rw [h3]; rfl
    · rw [h3]; rfl
    · rw [h3]; rfl
    · intro k ha hb hc
      rw [h3]
      have e1 : mapGet (some abTable) k = none := by
        show (((∅ : Table).insert "a" "1").insert "b" "2").lookup k = none
        rw [AList.lookup_insert_ne hb, AList.lookup_insert_ne ha, AList.lookup_empty]
      rw [e1]
      show (((∅ : Table).insert "a" "0").insert "c" "3").lookup k = none
      rw [AList.lookup_insert_ne hc, AList.lookup_insert_ne ha, AList.lookup_empty]⟩

theorem table_eq_of_entries_nil {E : Table} (h : E.entries = []) (k : String) :
    E.lookup k = none := by
  unfold AList.lookup
  rw [h]
  rfl

/-- C6: if the store loads as the table `T` and `exportCommands p` runs (the file
`p` can be written and read back, the JSON library round-trips the tables with
the entries of `T`), then it returns, and in every world that keeps the file
`p` and whose store loads as an empty table (a store file that is absent or
holds an empty object) and can be written, `importCommands p` returns and
leaves a store that loads as a table with exactly the entries of `T`. -/
theorem export_import_roundtrip (J : Json) (w0 : World) (p : String) (T : Table)
    (hload : loadCommands J w0 = .ok (some T, none))
    (hwp : (w0.files p).writable = true)
    (hrp : (w0.files p).present = true → (w0.files p).readable = true)
    (hrt : ∀ X : Table, (∀ k, X.lookup k = T.lookup k) → RoundTrips J X) :
    ∃ w1, exportCommands J p w0 = .ok w1 ∧ w1.out = w0.out ++ [Msg.exported p] ∧
      ∀ (w2 : World) (home2 : String) (E : Table),
        w2.files p = w1.files p → w2.homeDir = some home2 →
        loadCommands J w2 = .ok (some E, none) → E.entries = [] →
        (w2.files (storePath home2)).writable = true →
        ∃ w3 T', importCommands J p w2 = .ok w3 ∧
          loadCommands J w3 = .ok (some T', none) ∧ ∀ k, T'.lookup k = T.lookup k := by
  obtain ⟨d, hd, hback⟩ := hrt T (fun _ => rfl)
  obtain ⟨M, hM, hMT⟩ := hback none (Or.inl rfl)
  refine ⟨(osWriteFile w0 p d).1.print (.exported p), ?_, ?_, ?_⟩
  · simp [exportCommands, hload, hd]
  · simp [World.print, osWriteFile, hwp]
  · intro w2 home2 E hkeep hhome2 hload2 hE hw2
    have hfile : w2.files p =
        { present := true, readable := !(w0.files p).present || (w0.files p).readable,
          writable := true, data := d } := by
      rw [hkeep]
      simp [World.print, osWriteFile, hwp]
    have hreadable : (!(w0.files p).present || (w0.files p).readable) = true := by
      cases hp : (w0.files p).present with
      | false => rfl
      | true => simp [hrp hp]
    have hread : osReadFile w2 p = .ok d := by
      simp [osReadFile, hfile, hreadable]
    have hX : ∀ k, (mergeInto E (mapRange (some M))).lookup k = T.lookup k := by
      intro k
      rw [lookup_mergeInto, ← hMT k]
      show (match M.lookup k with
        | some v => some v
        | none => E.lookup k) = M.lookup k
      rw [table_eq_of_entries_nil hE]
      cases M.lookup k <;> rfl
    obtain ⟨dx, hdx, hbackx⟩ := hrt _ hX
    obtain ⟨T', hT', hT'X⟩ := hbackx emptyMap (Or.inr rfl)
    obtain ⟨w3, h1, _, _, h4⟩ :=
      import_saves hhome2 hread hM hload2 hw2 (load_readable hhome2 hload2) hdx
    exact ⟨w3, T', h1, by rw [h4, hT'], fun k => by rw [hT'X k, hX k]⟩

theorem eq_buildTable_of_lookup {X : Table} (h : ∀ k, X.lookup k = buildTable.lookup k) :
    X = buildTable := by
  apply AList.ext
  have hperm : X.entries.Perm buildTable.entries :=
    List.lookup_ext X.nodupKeys buildTable.nodupKeys (fun x y => by
      have := h x
      unfold AList.lookup at this
      rw [this])
  exact List.perm_singleton.mp hperm

theorem roundTrips_buildTable :
    ∀ X : Table, (∀ k, X.lookup k = buildTable.lookup k) → RoundTrips miniJson X := by
  intro X hX
  rw [eq_buildTable_of_lookup hX]
  exact roundTrips_of_eval (d := "\x7b\n  \"build\": \"make all\"\n\x7d")
    rfl rfl rfl (List.Perm.refl _) (List.Perm.refl _)

theorem export_import_roundtrip_witness :
    loadCommands miniJson (exampleWorld buildStore noFile) = .ok (some buildTable, none) ∧
    ((exampleWorld buildStore noFile).files "/tmp/cmds.json").writable = true ∧
    ((exampleWorld buildStore noFile).files "/tmp/cmds.json").present = false ∧
    (∀ X : Table, (∀ k, X.lookup k = buildTable.lookup k) → RoundTrips miniJson X) ∧
    loadCommands miniJson (exampleWorld noFile buildStore) = .ok (some ∅, none) ∧
    ∃ w3 T', importCommands miniJson "/tmp/cmds.json" (exampleWorld noFile buildStore) = .ok w3 ∧
      loadCommands miniJson w3 = .ok (some T', none) ∧
      ∀ k, T'.lookup k = buildTable.lookup k :=
  ⟨rfl, rfl, rfl, roundTrips_buildTable, rfl, by
    obtain ⟨w1, h1, _, h3⟩ := export_import_roundtrip miniJson (exampleWorld buildStore noFile)
      "/tmp/cmds.json" buildTable rfl rfl (fun h => by cases h) roundTrips_buildTable
    have hw1 : Except.ok w1 = (Except.ok ((osWriteFile (exampleWorld buildStore noFile)
        "/tmp/cmds.json" "\x7b\n  \"build\": \"make all\"\n\x7d").1.print
          (.exported "/tmp/cmds.json")) : Except Panic World) := by
      rw [← h1]; rfl
    cases hw1
    exact h3 (exampleWorld noFile buildStore) "/home/u" ∅ rfl rfl rfl rfl rfl⟩

theorem saveCommands_eq {J : Json} {w : World} {home d : String} {m : GoMap}
    (hh : w.homeDir = some home) (hm : J.marshalIndent m = .ok d) :
    saveCommands J m w = .ok (osWriteFile w (storePath home) d) := by
  simp [saveCommands, hm, getDataFilePath, hh]

theorem osWriteFile_writes (w : World) (path data : String) :
    (osWriteFile w path data).1.writes = w.writes ++ [(path, data)] := by
  cases h : (w.files path).writable <;> simp [osWriteFile, h]

theorem osWriteFile_out (w : World) (path data : String) :
    (osWriteFile w path data).1.out = w.out := by
  cases h : (w.files path).writable <;> simp [osWriteFile, h]

theorem osWriteFile_files_of_unwritable {w : World} {path : String} (data : String)
    (h : (w.files path).writable = false) : (osWriteFile w path data).1.files = w.files := by
  simp [osWriteFile, h]

/-- C7: the code departs from the claim when the stored command has surrounding
white space.  With `L` stored as `C`, the editor leaving `E`, the trimmed `E`
equal to the trimmed `C`, and `C` different from its own non-empty trimming,
`editCommand L` assigns the trimmed text to `L`, calls the save (one more
write of the store file, holding the table with `L` mapped to the trimmed
text) and prints the update message instead of 'No changes made.'. -/
theorem editCommand_resaves_padded (J : Json) (w : World) (home : String) (T : Table)
    (L C E d : String) (hhome : w.homeDir = some home)
    (hload : loadCommands J w = .ok (some T, none)) (hL : T.lookup L = some C)
    (htemp : w.tempOk = true)
    (hed : w.editor (if w.editorEnv = "" then "nano" else w.editorEnv) C = .ok E)
    (htrim : stringsTrimSpace E = stringsTrimSpace C)
    (hpad : stringsTrimSpace C ≠ C) (hne : stringsTrimSpace C ≠ "")
    (hm : J.marshalIndent (some (T.insert L (stringsTrimSpace C))) = .ok d) :
    ∃ w', editCommand J L w = .ok w' ∧
      w'.writes = w.writes ++ [(storePath home, d)] ∧
      w'.out = w.out ++ [Msg.updatedCommand L] := by
  refine ⟨(osWriteFile w (storePath home) d).1.print (.updatedCommand L), ?_, ?_, ?_⟩
  · simp only [editCommand, hload, mapGet, hL, htemp, hed, htrim]
    simp [hpad, hne, mapSet, saveCommands_eq hhome hm]
  · exact osWriteFile_writes w _ _
  · show (osWriteFile w (storePath home) d).1.out ++ _ = _
    rw [osWriteFile_out]

theorem editCommand_resaves_padded_witness :
    (exampleWorld paddedStore noFile).homeDir = some "/home/u" ∧
    loadCommands miniJson (exampleWorld paddedStore noFile) = .ok (some paddedTable, none) ∧
    paddedTable.lookup "x" = some " ls " ∧
    (exampleWorld paddedStore noFile).editor "nano" " ls " = .ok " ls " ∧
    stringsTrimSpace " ls " = "ls" ∧
    ∃ w', editCommand miniJson "x" (exampleWorld paddedStore noFile) = .ok w' ∧
      w'.writes = [("/home/u/.butiki_commands.json", "\x7b\n  \"x\": \"ls\"\n\x7d")] ∧
      w'.out = [Msg.updatedCommand "x"] :=
  ⟨rfl, rfl, rfl, rfl, rfl,
    editCommand_resaves_padded miniJson (exampleWorld paddedStore noFile) "/home/u" paddedTable
      "x" " ls " " ls " "\x7b\n  \"x\": \"ls\"\n\x7d" rfl rfl rfl rfl rfl rfl
      (by decide) (by decide) rfl⟩

/-- Where `editCommand` keeps its hands off the store: the editor left text that
trims to the stored command itself, or to nothing. -/
theorem editCommand_no_changes (J : Json) (w : World) (T : Table) (L C E : String)
    (hload : loadCommands J w = .ok (some T, none)) (hL : T.lookup L = some C)
    (htemp : w.tempOk = true)
    (hed : w.editor (if w.editorEnv = "" then "nano" else w.editorEnv) C = .ok E)
    (hsame : stringsTrimSpace E = C ∨ stringsTrimSpace E = "") :
    editCommand J L w = .ok (w.print .noChanges) := by
  simp only [editCommand, hload, mapGet, hL, htemp, hed]
  rcases hsame with h | h <;> simp [h]

theorem loadCommands_unreadable {J : Json} {w : World} {home : String}
    (hhome : w.homeDir = some home)
    (hp : (w.files (storePath home)).present = true)
    (hr : (w.files (storePath home)).readable = false) :
    loadCommands J w = .ok (none, some (.io "open" (storePath home))) := by
  simp only [storePath] at *
  simp only [loadCommands, getDataFilePath, hhome]
  change (if osIsNotExist w (filepathJoin home dataFileName) then _ else _) = _
  simp [osIsNotExist, osReadFile, hp, hr]

/-- C8: the code departs from the claim when the store file exists but cannot be
read.  `loadCommands` then returns the nil map with the error, `importCommands`
drops the error, and with an import file that parses to a map with at least one
entry the first assignment of the loop panics (assignment to entry in nil map):
the process terminates abnormally and nothing is saved. -/
theorem importCommands_panics_unreadable_store (J : Json) (w : World) (home p d : String)
    (imported : GoMap) (hhome : w.homeDir = some home)
    (hread : osReadFile w p = .ok d) (hparse : J.unmarshal d none = (imported, none))
    (hne : mapRange imported ≠ [])
    (hp : (w.files (storePath home)).present = true)
    (hr : (w.files (storePath home)).readable = false) :
    importCommands J p w = .error .nilMapAssign := by
  simp only [importCommands, hread, hparse, loadCommands_unreadable hhome hp hr]
  cases hl : mapRange imported with
  | nil => exact absurd hl hne
  | cons e rest =>
    obtain ⟨k, v⟩ := e
    simp [importLoop, mapSet]

theorem importCommands_panics_unreadable_store_witness :
    (exampleWorld unreadableStore abFile).homeDir = some "/home/u" ∧
    osReadFile (exampleWorld unreadableStore abFile) "/tmp/cmds.json" =
      .ok "\x7b\"a\":\"1\",\"b\":\"2\"\x7d" ∧
    miniJson.unmarshal "\x7b\"a\":\"1\",\"b\":\"2\"\x7d" none = (some abTable, none) ∧
    mapRange (some abTable) ≠ [] ∧
    ((exampleWorld unreadableStore abFile).files (storePath "/home/u")).present = true ∧
    ((exampleWorld unreadableStore abFile).files (storePath "/home/u")).readable = false ∧
    importCommands miniJson "/tmp/cmds.json" (exampleWorld unreadableStore abFile) =
      .error .nilMapAssign :=
  ⟨rfl, rfl, rfl, by decide, rfl, rfl,
    importCommands_panics_unreadable_store miniJson (exampleWorld unreadableStore abFile)
      "/home/u" "/tmp/cmds.json" "\x7b\"a\":\"1\",\"b\":\"2\"\x7d" (some abTable)
      rfl rfl rfl (by decide) rfl rfl⟩

/-- Where `importCommands` does fall back to the empty table: the store file is
read, the JSON library rejects it and leaves the empty map it was given.  The
table saved is then the import loop run on the empty table, whose entries are
those of the imported map. -/
theorem importCommands_malformed_store (J : Json) (w : World) (home p d dx : String)
    (imported : GoMap) (err : GoError) (hhome : w.homeDir = some home)
    (hread : osReadFile w p = .ok d) (hparse : J.unmarshal d none = (imported, none))
    (hp : (w.files (storePath home)).present = true)
    (hr : (w.files (storePath home)).readable = true)
    (hbad : J.unmarshal (w.files (storePath home)).data emptyMap = (emptyMap, some err))
    (hw : (w.files (storePath home)).writable = true)
    (hm : J.marshalIndent (some (mergeInto ∅ (mapRange imported))) = .ok dx) :
    (∃ w', importCommands J p w = .ok w' ∧
      w'.out = w.out ++ [Msg.imported (mapLen imported)] ∧
      w'.writes = w.writes ++ [(storePath home, dx)]) ∧
    ∀ k, (mergeInto ∅ (mapRange imported)).lookup k = mapGet imported k := by
  have hload : loadCommands J w = .ok (some ∅, some err) := by
    simp only [storePath] at *
    simp only [loadCommands, getDataFilePath, hhome]
    change (if osIsNotExist w (filepathJoin home dataFileName) then _ else _) = _
    simp only [osIsNotExist, osReadFile, hp, hr, Bool.not_true, Bool.and_self, if_true,
      Bool.false_eq_true, if_false, hbad]
    rfl
  constructor
  · obtain ⟨w', h1, h2, h3, _⟩ := import_saves hhome hread hparse hload hw (fun _ => hr) hm
    exact ⟨w', h1, h2, h3⟩
  · intro k
    rw [lookup_mergeInto]
    cases mapGet imported k <;> simp

/-- Whatever the map, `saveCommands` returns; when the store file cannot be
written it returns an error, prints nothing and leaves every file as it was. -/
theorem saveCommands_unwritable {J : Json} {w : World} {home : String} (m : GoMap)
    (hh : w.homeDir = some home) (hunw : (w.files (storePath home)).writable = false) :
    ∃ w' err, saveCommands J m w = .ok (w', some err) ∧ w'.out = w.out ∧
      w'.files = w.files := by
  cases hm : J.marshalIndent m with
  | error err => exact ⟨w, err, by simp [saveCommands, hm], rfl, rfl⟩
  | ok d =>
    refine ⟨(osWriteFile w (storePath home) d).1, .io "write" (storePath home), ?_,
      osWriteFile_out w _ _, osWriteFile_files_of_unwritable d hunw⟩
    rw [saveCommands_eq hh hm]
    simp only [storePath] at hunw
    simp [osWriteFile, hunw]

/-- C9: the code departs from the claim on every failing write.  On a store that
loads as `T` but cannot be written, `addCommand`, `updateCommand`,
`deleteCommand` and `importCommands` return having printed exactly their
success message, with every file as it was; so does `exportCommands` when the
export file cannot be written.  No failure is reported. -/
theorem write_failure_prints_success (J : Json) (w : World) (home : String) (T : Table)
    (hhome : w.homeDir = some home)
    (hload : loadCommands J w = .ok (some T, none))
    (hunw : (w.files (storePath home)).writable = false) :
    (∀ L C, L ∉ T → ∃ w', addCommand J L C w = .ok w' ∧
      w'.out = w.out ++ [Msg.added L] ∧ w'.files = w.files) ∧
    (∀ L C, L ∈ T → ∃ w', updateCommand J L C w = .ok w' ∧
      w'.out = w.out ++ [Msg.updated L] ∧ w'.files = w.files) ∧
    (∀ L, L ∈ T → ∃ w', deleteCommand J L w = .ok w' ∧
      w'.out = w.out ++ [Msg.deleted L] ∧ w'.files = w.files) ∧
    (∀ p d imported, osReadFile w p = .ok d → J.unmarshal d none = (imported, none) →
      ∃ w', importCommands J p w = .ok w' ∧
        w'.out = w.out ++ [Msg.imported (mapLen imported)] ∧ w'.files = w.files) ∧
    (∀ p d, (w.files p).writable = false → J.marshalIndent (some T) = .ok d →
      ∃ w', exportCommands J p w = .ok w' ∧
        w'.out = w.out ++ [Msg.exported p] ∧ w'.files = w.files) := by
  refine ⟨?_, ?_, ?_, ?_, ?_⟩
  · intro L C hL
    have hn : T.lookup L = none := AList.lookup_eq_none.mpr hL
    obtain ⟨w', err, h1, h2, h3⟩ := saveCommands_unwritable (J := J) (some (T.insert L C))
      hhome hunw
    exact ⟨w'.print (.added L), by simp [addCommand, hload, mapGet, hn, mapSet, h1],
      by simp [World.print, h2], h3⟩
  · intro L C hL
    obtain ⟨c, hc⟩ := Option.isSome_iff_exists.mp (AList.lookup_isSome.mpr hL)
    obtain ⟨w', err, h1, h2, h3⟩ := saveCommands_unwritable (J := J) (some (T.insert L C))
      hhome hunw
    exact ⟨w'.print (.updated L), by simp [updateCommand, hload, mapGet, hc, mapSet, h1],
      by simp [World.print, h2], h3⟩
  · intro L hL
    obtain ⟨c, hc⟩ := Option.isSome_iff_exists.mp (AList.lookup_isSome.mpr hL)
    obtain ⟨w', err, h1, h2, h3⟩ := saveCommands_unwritable (J := J) (some (T.erase L))
      hhome hunw
    exact ⟨w'.print (.deleted L), by simp [deleteCommand, hload, mapGet, hc, mapDelete, h1],
      by simp [World.print, h2], h3⟩
  · intro p d imported hread hparse
    obtain ⟨w', err, h1, h2, h3⟩ := saveCommands_unwritable (J := J)
      (some (mergeInto T (mapRange imported))) hhome hunw
    exact ⟨w'.print (.imported (mapLen imported)),
      by simp [importCommands, hread, hparse, hload, importLoop_some, h1],
      by simp [World.print, h2], h3⟩
  · intro p d hp hd
    refine ⟨(osWriteFile w p d).1.print (.exported p), by simp [exportCommands, hload, hd],
      ?_, osWriteFile_files_of_unwritable d hp⟩
    show (osWriteFile w p d).1.out ++ _ = _
    rw [osWriteFile_out]

theorem write_failure_prints_success_witness :
    (exampleWorld readOnlyStore noFile).homeDir = some "/home/u" ∧
    loadCommands miniJson (exampleWorld readOnlyStore noFile) = .ok (some buildTable, none) ∧
    ((exampleWorld readOnlyStore noFile).files (storePath "/home/u")).writable = false ∧
    "test" ∉ buildTable ∧
    ∃ w', addCommand miniJson "test" "go test" (exampleWorld readOnlyStore noFile) = .ok w' ∧
      w'.out = [Msg.added "test"] ∧ w'.files = (exampleWorld readOnlyStore noFile).files :=
  have hmem : "test" ∉ buildTable := AList.lookup_eq_none.mp (by rfl)
  ⟨rfl, rfl, rfl, hmem,
    (write_failure_prints_success miniJson (exampleWorld readOnlyStore noFile) "/home/u"
      buildTable rfl rfl rfl).1 "test" "go test" hmem⟩

theorem stringsJoin_ne_empty {l : List String} (h0 : l ≠ []) (h1 : l ≠ [""]) :
    stringsJoin l " " ≠ "" := by
  match l, h0, h1 with
  | [a], _, h1 =>
    intro h
    apply h1
    simp only [stringsJoin] at h
    rw [h]
  | a :: b :: rest, _, _ =>
    intro h
    have hlen := congrArg String.length h
    simp only [stringsJoin, String.length_append] at hlen
    have h1 : " ".length = 1 := rfl
    have h2 : "".length = 0 := rfl
    omega

theorem nonEmptyValues_insert {T : Table} {L C : String} (hT : NonEmptyValues T)
    (hC : C ≠ "") : NonEmptyValues (T.insert L C) := by
  intro k v hk
  by_cases h : k = L
  · subst h
    rw [AList.lookup_insert] at hk
    cases hk
    exact hC
  · rw [AList.lookup_insert_ne h] at hk
    exact hT k v hk

theorem nonEmptyValues_mergeInto {T : Table} {imported : GoMap} (hT : NonEmptyValues T)
    (hI : ∀ k v, mapGet imported k = some v → v ≠ "") :
    NonEmptyValues (mergeInto T (mapRange imported)) := by
  intro k v hk
  rw [lookup_mergeInto] at hk
  cases hg : mapGet imported k with
  | none =>
    rw [hg] at hk
    exact hT k v hk
  | some u =>
    rw [hg] at hk
    cases hk
    exact hI k _ hg

/-- A save followed by a message: one write at most, of the table handed over. -/
theorem savesOnly_save {J : Json} {w : World} {home : String} {P : Table → Prop} {X : Table}
    (hh : w.homeDir = some home) (hX : P X) (msg : Msg) :
    SavesOnly J home P w
      (match saveCommands J (some X) w with
        | .error p => .error p
        | .ok (w, _) => .ok (w.print msg)) := by
  cases hm : J.marshalIndent (some X) with
  | error err =>
    refine ⟨w.print msg, by simp [saveCommands, hm], Or.inl rfl⟩
  | ok d =>
    refine ⟨(osWriteFile w (storePath home) d).1.print msg, by rw [saveCommands_eq hh hm],
      Or.inr ⟨X, d, hX, hm, osWriteFile_writes w _ _⟩⟩

theorem savesOnly_print {J : Json} {w : World} {home : String} {P : Table → Prop} (msg : Msg) :
    SavesOnly J home P w (.ok (w.print msg)) :=
  ⟨w.print msg, rfl, Or.inl rfl⟩

/-- C10 as amended: on a store that loads as a table whose commands are all
non-empty, every save leaves such a table again, for `editCommand` always, for
add and update as dispatched by `main` unless the one command argument is the
empty string, and for `importCommands` when every command of the imported map
is non-empty. -/
theorem nonEmptyValues_preserved (J : Json) (w : World) (home : String) (T : Table)
    (hhome : w.homeDir = some home)
    (hload : loadCommands J w = .ok (some T, none))
    (hinv : NonEmptyValues T) :
    (∀ args : List String, (args.getD 1 "" = "add" ∨ args.getD 1 "" = "update") →
      4 ≤ args.length → args.drop 3 ≠ [""] →
      SavesOnly J home NonEmptyValues w (main J args w)) ∧
    (∀ L, SavesOnly J home NonEmptyValues w (editCommand J L w)) ∧
    (∀ p, (∀ d imported, osReadFile w p = .ok d → J.unmarshal d none = (imported, none) →
        ∀ k v, mapGet imported k = some v → v ≠ "") →
      SavesOnly J home NonEmptyValues w (importCommands J p w)) := by
  refine ⟨?_, ?_, ?_⟩
  · intro args hact hlen hcmd
    have hdrop : args.drop 3 ≠ [] := by
      intro h
      have := congrArg List.length h
      simp only [List.length_drop, List.length_nil] at this
      omega
    have hC := stringsJoin_ne_empty hdrop hcmd
    have h2 : ¬ args.length < 2 := by omega
    have h4 : ¬ args.length < 4 := by omega
    rcases hact with ha | ha
    · simp only [main, h2, h4, ha, if_true, if_false]
      simp only [addCommand, hload]
      cases hL : mapGet (some T) (args.getD 2 "") with
      | some c => exact savesOnly_print _
      | none =>
        simp only [mapSet]
        exact savesOnly_save hhome (nonEmptyValues_insert hinv hC) _
    · have hne : ¬ ("update" = "add") := by decide
      simp only [main, h2, h4, ha, hne, if_true, if_false]
      simp only [updateCommand, hload]
      cases hL : mapGet (some T) (args.getD 2 "") with
      | none => exact savesOnly_print _
      | some c =>
        simp only [mapSet]
        exact savesOnly_save hhome (nonEmptyValues_insert hinv hC) _
  · intro L
    simp only [editCommand, hload]
    cases hL : mapGet (some T) L with
    | none => exact savesOnly_print _
    | some oldCommand =>
      simp only []
      cases ht : w.tempOk with
      | false => exact savesOnly_print _
      | true =>
        simp only [Bool.not_true, Bool.false_eq_true, if_false]
        cases hed : w.editor (if w.editorEnv = "" then "nano" else w.editorEnv) oldCommand with
        | error err => exact savesOnly_print _
        | ok edited =>
          simp only []
          by_cases hc : stringsTrimSpace edited ≠ "" ∧ stringsTrimSpace edited ≠ oldCommand
          · rw [if_pos hc]
            simp only [mapSet]
            exact savesOnly_save hhome (nonEmptyValues_insert hinv hc.1) _
          · rw [if_neg hc]
            exact savesOnly_print _
  · intro p hI
    simp only [importCommands]
    cases hread : osReadFile w p with
    | error err => exact savesOnly_print _
    | ok d =>
      simp only []
      rcases hparse : J.unmarshal d none with ⟨imported, e⟩
      cases e with
      | some err => exact savesOnly_print _
      | none =>
        simp only [hload, importLoop_some]
        exact savesOnly_save hhome
          (nonEmptyValues_mergeInto hinv (hI d imported hread hparse)) _

theorem nonEmptyValues_buildTable : NonEmptyValues buildTable := by
  intro k v hk
  by_cases h : k = "build"
  · subst h
    have hv : v = "make all" := by
      have : buildTable.lookup "build" = some "make all" := rfl
      rw [this] at hk
      exact (Option.some.inj hk).symm
    rw [hv]
    decide
  · have : buildTable.lookup k = none := by
      show ((∅ : Table).insert "build" "make all").lookup k = none
      rw [AList.lookup_insert_ne h, AList.lookup_empty]
    rw [this] at hk
    cases hk

theorem nonEmptyValues_preserved_witness :
    (exampleWorld buildStore noFile).homeDir = some "/home/u" ∧
    loadCommands miniJson (exampleWorld buildStore noFile) = .ok (some buildTable, none) ∧
    NonEmptyValues buildTable ∧
    SavesOnly miniJson "/home/u" NonEmptyValues (exampleWorld buildStore noFile)
      (main miniJson ["butiki", "add", "test", "go", "test"] (exampleWorld buildStore noFile)) :=
  ⟨rfl, rfl, nonEmptyValues_buildTable,
    (nonEmptyValues_preserved miniJson (exampleWorld buildStore noFile) "/home/u" buildTable
      rfl rfl nonEmptyValues_buildTable).1 ["butiki", "add", "test", "go", "test"]
      (Or.inl rfl) (by decide) (by decide)⟩

/-- C10 as stated fails: on an absent store (the empty table, which satisfies
the invariant) `butiki add x ""` passes the argument check of `main`, and the
table saved and loaded afterwards maps `x` to the empty command. -/
theorem add_empty_command_is_stored :
    NonEmptyValues (∅ : Table) ∧
    loadCommands miniJson (exampleWorld noFile noFile) = .ok (some ∅, none) ∧
    miniJson.marshalIndent (some ((∅ : Table).insert "x" "")) =
      .ok "\x7b\n  \"x\": \"\"\n\x7d" ∧
    ∃ w', main miniJson ["butiki", "add", "x", ""] (exampleWorld noFile noFile) = .ok w' ∧
      w'.writes = [("/home/u/.butiki_commands.json", "\x7b\n  \"x\": \"\"\n\x7d")] ∧
      w'.out = [Msg.added "x"] ∧
      loadCommands miniJson w' = .ok (some ((∅ : Table).insert "x" ""), none) ∧
      ¬ NonEmptyValues ((∅ : Table).insert "x" "") :=
  ⟨fun k v h => (by rw [AList.lookup_empty] at h; cases h), rfl, rfl,
    (osWriteFile (exampleWorld noFile noFile) "/home/u/.butiki_commands.json"
      "\x7b\n  \"x\": \"\"\n\x7d").1.print (.added "x"),
    rfl, rfl, rfl, rfl, fun h => h "x" "" (AList.lookup_insert _) rfl⟩

end Butiki
